import Mathlib

/-!
# appleLogin: a shallow embedding of `appleLogin.go`

The Go package is glue over `encoding/pem`, `crypto/x509`,
`github.com/dgrijalva/jwt-go` (v3), `net/url`,
`github.com/parnurzeal/gorequest` and `encoding/json`.  The functions of
`appleLogin.go` are embedded line by line.  The library calls they make are
embedded as far as their control flow decides the behaviour of the package;
cryptography, base64, JSON scanning, the clock and the network are parameters
of the embedding (`Env`).

Go strings are byte sequences, the pair `(value, error)` a Go function returns
is a pair of options, and a run-time panic is an explicit outcome.
-/

set_option autoImplicit false

namespace AppleLogin

/-! ## Go values -/

/-- One byte of a Go string. -/
abbrev Byte := Fin 256

/-- Go `string` / `[]byte`: an arbitrary byte sequence. -/
abbrev GoString := List Byte

/-- The bytes of an ASCII literal. -/
def ascii (s : String) : GoString :=
  s.data.map (fun c => (⟨c.toNat % 256, Nat.mod_lt _ (by decide)⟩ : Byte))

/-- Wrap-around of Go `int64` arithmetic. -/
def wrapInt64 (x : Int) : Int :=
  (x + 2 ^ 63) % 2 ^ 64 - 2 ^ 63

/-- Dynamic values held in `interface{}`: what the package stores in claims
(`string`, `int64`) and what `encoding/json` decodes into `interface{}`. -/
inductive Value where
  | null
  | bool (b : Bool)
  | int64 (v : Int)
  | float64 (lit : GoString)
  | str (s : GoString)
  | slice (elems : List Value)
  | map (entries : List (GoString × Value))

/-- Go `map[string]interface{}`, one entry per key. -/
abbrev GoMap := List (GoString × Value)

/-- Go `m[k]` with the comma-ok form. -/
def GoMap.index (m : GoMap) (k : GoString) : Option Value :=
  (m.find? (fun kv => decide (kv.1 = k))).map (fun kv => kv.2)

/-- The dynamic value of a non-nil `AESCert interface{}`: what
`x509.ParsePKCS8PrivateKey` returns (`*ecdsa.PrivateKey`, `*rsa.PrivateKey`,
`ed25519.PrivateKey`), or any other value a caller stored in the field. -/
inductive PrivateKey where
  | ecdsa (curveBits : Nat) (d : Nat)
  | rsa (n : Nat) (d : Nat)
  | ed25519 (seed : GoString)
  | other (typeName : GoString)
  deriving DecidableEq

/-- Errors of `jwt-go` signing methods (`errors.go`, `none.go`) and of
`DecodeSegment`. -/
inductive JwtErr where
  | ErrInvalidKey
  | ErrInvalidKeyType
  | ErrHashUnavailable
  | ErrECDSAVerification
  | ErrSignatureInvalid
  | NoneSignatureTypeDisallowedError
  | noneWithSignature
  | base64 (msg : GoString)
  | json (msg : GoString)
  | other (msg : GoString)
  deriving DecidableEq

/-- Go `*jwt.ValidationError`: `Inner`, the bit mask `Errors`, and `text`. -/
structure ValidationError where
  Inner : Option JwtErr
  Errors : Nat
  text : GoString
  deriving DecidableEq

/-- Go `error` values that leave the package. -/
inductive GoError where
  | errorsNew (msg : GoString)
  | fmtErrorf (errs : List GoString)
  | jwt (e : ValidationError)
  | jsonSyntax (msg : GoString)
  | jsonUnmarshalType (value : GoString) (field : GoString)
  | x509 (msg : GoString)
  deriving DecidableEq

/-- Outcome of a Go call: it returns, or the goroutine panics. -/
inductive Outcome (α : Type) where
  | returned (a : α)
  | panicked (msg : GoString)

/-! ## Data model of `appleLogin.go` -/

/-- `AppleConfig` (lines 18-23). `AESCert` is `nil` until a key is loaded. -/
structure AppleConfig where
  TeamID : GoString
  ClientID : GoString
  KeyID : GoString
  AESCert : Option PrivateKey
  deriving DecidableEq

/-- `AppleAuthToken` (lines 26-32). -/
structure AppleAuthToken where
  AccessToken : GoString
  ExpiresIn : Int
  IDToken : GoString
  RefreshToken : GoString
  TokenType : GoString
  deriving DecidableEq

/-- `AppleUser` (lines 34-37). -/
structure AppleUser where
  ID : GoString
  Email : GoString
  deriving DecidableEq

/-- `AppleAuthURL` (line 40). -/
def AppleAuthURL : GoString := ascii "https://appleid.apple.com/auth/token"

/-- `AppleGrantType` (line 41). -/
def AppleGrantType : GoString := ascii "authorization_code"

/-- `AUDLink` (line 42). -/
def AUDLink : GoString := ascii "https://appleid.apple.com"

/-- `InitAppleConfig` (lines 66-73). -/
def InitAppleConfig (teamID clientID keyID : GoString) : AppleConfig :=
  { TeamID := teamID, ClientID := clientID, KeyID := keyID, AESCert := none }

/-! ## `net/url`: query escaping, `Values.Set`, `Values.Encode` -/

/-- Byte with the given code, reduced modulo 256. -/
def byteOfNat (n : Nat) : Byte := ⟨n % 256, Nat.mod_lt _ (by decide)⟩

/-- `shouldEscape(c, encodeQueryComponent)` of `net/url`: only ASCII letters,
digits and `-`, `_`, `.`, `~` are left alone. -/
def shouldEscape (c : Byte) : Bool :=
  if (97 ≤ c.val ∧ c.val ≤ 122) ∨ (65 ≤ c.val ∧ c.val ≤ 90) ∨ (48 ≤ c.val ∧ c.val ≤ 57) then false
  else if c.val = 45 ∨ c.val = 95 ∨ c.val = 46 ∨ c.val = 126 then false
  else true

/-- `upperhex[n]` for `n < 16`, the table "0123456789ABCDEF". -/
def upperhex (n : Nat) : Byte :=
  if n < 10 then byteOfNat (48 + n) else byteOfNat (55 + n)

/-- `url.QueryEscape`: a space becomes `+`, an escaped byte becomes `%XX`. -/
def QueryEscape : GoString → GoString
  | [] => []
  | c :: s =>
    if c.val = 32 then byteOfNat 43 :: QueryEscape s
    else if shouldEscape c then
      byteOfNat 37 :: upperhex (c.val / 16) :: upperhex (c.val % 16) :: QueryEscape s
    else c :: QueryEscape s

/-- `ishex` of `net/url`. -/
def ishex (c : Byte) : Bool :=
  (48 ≤ c.val ∧ c.val ≤ 57) ∨ (97 ≤ c.val ∧ c.val ≤ 102) ∨ (65 ≤ c.val ∧ c.val ≤ 70)

/-- `unhex` of `net/url`. -/
def unhex (c : Byte) : Nat :=
  if 48 ≤ c.val ∧ c.val ≤ 57 then c.val - 48
  else if 97 ≤ c.val ∧ c.val ≤ 102 then c.val - 97 + 10
  else if 65 ≤ c.val ∧ c.val ≤ 70 then c.val - 65 + 10
  else 0

/-- `url.QueryUnescape`: `none` is the `EscapeError` for a `%` that is not
followed by two hex digits. -/
def QueryUnescape : GoString → Option GoString
  | [] => some []
  | c :: s =>
    if c.val = 37 then
      match s with
      | h :: l :: rest =>
        if ishex h && ishex l then
          (QueryUnescape rest).map (fun t => byteOfNat (unhex h * 16 + unhex l) :: t)
        else none
      | _ => none
    else if c.val = 43 then (QueryUnescape s).map (fun t => byteOfNat 32 :: t)
    else (QueryUnescape s).map (fun t => c :: t)

/-- `url.Values`, a `map[string][]string`, kept as an association list with
one entry per key. -/
abbrev Values := List (GoString × List GoString)

/-- `Values.Set`: `v[key] = []string{value}`. -/
def Values.Set : Values → GoString → GoString → Values
  | [], key, value => [(key, [value])]
  | (k, vs) :: rest, key, value =>
    if k = key then (k, [value]) :: rest else (k, vs) :: Values.Set rest key value

/-- `Values.Add` / `m[key] = append(m[key], value)`. -/
def Values.Add : Values → GoString → GoString → Values
  | [], key, value => [(key, [value])]
  | (k, vs) :: rest, key, value =>
    if k = key then (k, vs ++ [value]) :: rest else (k, vs) :: Values.Add rest key value

/-- Go string order `s <= t`: bytewise lexicographic. -/
def strLe : GoString → GoString → Bool
  | [], _ => true
  | _ :: _, [] => false
  | a :: s, b :: t => if a.val < b.val then true else if b.val < a.val then false else strLe s t

/-- Insertion of one entry into a list of entries sorted by key. -/
def insertSorted (e : GoString × List GoString) : Values → Values
  | [] => [e]
  | x :: rest => if strLe e.1 x.1 then e :: x :: rest else x :: insertSorted e rest

/-- The entries in increasing key order (`slices.Sort(keys)` in `Encode`). -/
def sortByKey (v : Values) : Values :=
  v.foldr insertSorted []

/-- Pieces joined by `&`. -/
def joinAmp : List GoString → GoString
  | [] => []
  | [p] => p
  | p :: q :: rest => p ++ byteOfNat 38 :: joinAmp (q :: rest)

/-- `Values.Encode`: `key=value` pairs, both escaped, sorted by key and joined
by `&`. -/
def Values.Encode (v : Values) : GoString :=
  joinAmp ((sortByKey v).flatMap (fun kv =>
    kv.2.map (fun value => QueryEscape kv.1 ++ byteOfNat 61 :: QueryEscape value)))

/-- `strings.Split(s, sep)` for a one-byte separator. -/
def splitOn (sep : Byte) : GoString → List GoString
  | [] => [[]]
  | c :: s =>
    if c = sep then [] :: splitOn sep s
    else
      match splitOn sep s with
      | [] => [[c]]
      | p :: ps => (c :: p) :: ps

/-- `strings.Cut(s, sep)` for a one-byte separator, without the found flag:
when the separator is absent the whole string is the first part. -/
def cut (sep : Byte) : GoString → GoString × GoString
  | [] => ([], [])
  | c :: s => if c = sep then ([], s) else (c :: (cut sep s).1, (cut sep s).2)

/-- One iteration of the loop of `url.ParseQuery` on the piece `key` that
`strings.Cut(query, "&")` split off: pieces holding `;`, empty pieces and
pieces that do not unescape are skipped (the first error is kept). -/
def parseQueryStep (acc : Values × Bool) (key : GoString) : Values × Bool :=
  if byteOfNat 59 ∈ key then (acc.1, false)
  else if key = [] then acc
  else
    match QueryUnescape (cut (byteOfNat 61) key).1, QueryUnescape (cut (byteOfNat 61) key).2 with
    | some k, some value => (Values.Add acc.1 k value, acc.2)
    | _, _ => (acc.1, false)

/-- Decoding of an `application/x-www-form-urlencoded` body as `url.ParseQuery`
does it: the decoded fields in order of first appearance, and whether no
error was met.  The pieces `ParseQuery` cuts off at each `&` are those of
`strings.Split` (a trailing empty piece is skipped either way). -/
def ParseQuery (query : GoString) : Values × Bool :=
  (splitOn (byteOfNat 38) query).foldl parseQueryStep ([], true)

/-! ## `jwt-go`: building and signing a token -/

/-- The signing methods `jwt-go` registers. -/
inductive SigningMethod where
  | HS256 | HS384 | HS512
  | RS256 | RS384 | RS512
  | PS256 | PS384 | PS512
  | ES256 | ES384 | ES512
  | none
  deriving DecidableEq

/-- `jwt.SigningMethodES256`. -/
def SigningMethodES256 : SigningMethod := .ES256

/-- `jwt.Claims`, the interface type of `Token.Claims`, by dynamic type:
`jwt.MapClaims` or another implementation (such as `*jwt.StandardClaims`). -/
inductive Claims where
  | MapClaims (m : GoMap)
  | other (m : GoMap)

/-- The type assertion `c.(jwt.MapClaims)` in comma-ok form. -/
def Claims.asMapClaims : Claims → Option GoMap
  | .MapClaims m => some m
  | .other _ => Option.none

/-- `jwt.Token`. -/
structure Token where
  Raw : GoString
  Method : SigningMethod
  Header : GoMap
  Claims : Claims
  Signature : GoString
  Valid : Bool

/-- `SigningMethod.Alg()`. -/
def SigningMethod.Alg : SigningMethod → GoString
  | .HS256 => ascii "HS256" | .HS384 => ascii "HS384" | .HS512 => ascii "HS512"
  | .RS256 => ascii "RS256" | .RS384 => ascii "RS384" | .RS512 => ascii "RS512"
  | .PS256 => ascii "PS256" | .PS384 => ascii "PS384" | .PS512 => ascii "PS512"
  | .ES256 => ascii "ES256" | .ES384 => ascii "ES384" | .ES512 => ascii "ES512"
  | .none => ascii "none"

/-- `jwt.GetSigningMethod`: the registered method of that name, if any. -/
def GetSigningMethod (alg : GoString) : Option SigningMethod :=
  [SigningMethod.HS256, .HS384, .HS512, .RS256, .RS384, .RS512, .PS256, .PS384, .PS512,
    .ES256, .ES384, .ES512, .none].find? (fun m => decide (m.Alg = alg))

/-- `SigningMethodECDSA.CurveBits` for the `ES*` methods. -/
def SigningMethod.CurveBits : SigningMethod → Option Nat
  | .ES256 => some 256
  | .ES384 => some 384
  | .ES512 => some 521
  | _ => Option.none

/-- `jwt.NewWithClaims`. -/
def NewWithClaims (method : SigningMethod) (claims : Claims) : Token :=
  { Raw := [], Method := method,
    Header := [(ascii "typ", .str (ascii "JWT")), (ascii "alg", .str method.Alg)],
    Claims := claims, Signature := [], Valid := false }

/-- `gorequest.TypeUrlencoded`. -/
def TypeUrlencoded : GoString := ascii "urlencoded"

/-- The request `gorequest.New().Post(url).Type(t).Send(body)` describes. -/
structure Request where
  url : GoString
  type : GoString
  body : GoString
  deriving DecidableEq

/-- What `SuperAgent.End()` returns: a non-nil error slice with a nil
response, or a response (status code and body) with nil errors. -/
inductive EndResult where
  | failed (errs : List GoString)
  | response (StatusCode : Int) (body : GoString)
  deriving DecidableEq

/-- The syntax tree of a JSON text.  A number is `int` when its literal has
neither fraction nor exponent, `real` otherwise. -/
inductive JSON where
  | null
  | bool (b : Bool)
  | int (v : Int)
  | real (lit : GoString)
  | str (s : GoString)
  | arr (xs : List JSON)
  | obj (members : List (GoString × JSON))

/-- The fields of `AppleAuthToken`. -/
inductive Field where
  | AccessToken | ExpiresIn | IDToken | RefreshToken | TokenType
  deriving DecidableEq

/-- The `json:"..."` tag of a field (lines 27-31). -/
def Field.tag : Field → GoString
  | .AccessToken => ascii "access_token"
  | .ExpiresIn => ascii "expires_in"
  | .IDToken => ascii "id_token"
  | .RefreshToken => ascii "refresh_token"
  | .TokenType => ascii "token_type"

/-- The dynamic value a `jwt.Keyfunc` hands to `Verify` when it is not `nil`:
`[]byte`, `*rsa.PublicKey`, `*ecdsa.PublicKey`, or
`jwt.UnsafeAllowNoneSignatureType`. -/
inductive VerifyKey where
  | bytes (k : GoString)
  | rsaPublic (n : Nat) (e : Nat)
  | ecdsaPublic (curveBits : Nat) (x : Nat) (y : Nat)
  | unsafeNoneMagicConstant
  deriving DecidableEq

/-- `pem.Block`. -/
structure PemBlock where
  Type_ : GoString
  Headers : List (GoString × GoString)
  Bytes : GoString
  deriving DecidableEq

/-- The world outside the package: clock, cryptography, codecs, network. -/
structure Env where
  /-- The value of `time.Now().Unix()` at the n-th reading of the clock. -/
  clock : Nat → Int
  /-- The text `Token.SigningString()` returns: base64url of the JSON header,
  a dot, base64url of the JSON claims. -/
  SigningString : Token → Except JwtErr GoString
  /-- The call `ecdsa.Sign(rand.Reader, key, sha256(signingString))` followed by
  `EncodeSegment`, for a key of the given curve size and secret. -/
  ecdsaSign : Nat → Nat → GoString → Except JwtErr GoString
  /-- The method `Sign` of the methods that are not ECDSA ones. -/
  signOther : SigningMethod → GoString → PrivateKey → GoString × Option JwtErr
  /-- The exchange with the token endpoint. -/
  End : Request → EndResult
  /-- The scanner of `encoding/json`: the syntax tree of a text, or the message
  of the syntax error. -/
  jsonScan : GoString → Except GoString JSON
  /-- The field a key selects by case-insensitive match when no tag equals it
  exactly. -/
  foldedField : GoString → Option Field
  /-- `jwt.DecodeSegment`: base64url decoding of one token segment. -/
  DecodeSegment : GoString → Except JwtErr GoString
  /-- `json.Unmarshal(headerBytes, &token.Header)`. -/
  jsonUnmarshalMap : GoString → Except JwtErr GoMap
  /-- `json.NewDecoder(claimBytes).Decode(&claims)` for `MapClaims`. -/
  jsonDecodeClaims : GoString → Except JwtErr GoMap
  /-- `token.Claims.Valid()`: `nil`, or the error for `exp`, `iat`, `nbf` against
  the current time. -/
  claimsValid : Claims → Option ValidationError
  /-- The cryptographic check at the end of `Verify`, once the key has the
  type the method wants and the signature segment is decoded. -/
  cryptoVerify : SigningMethod → VerifyKey → GoString → GoString → Option JwtErr
  /-- `fmt.Sprintf("%v", v)` for a value that is not a string. -/
  Sprint : Value → GoString
  /-- The rest of `pem.Decode` once a `-----BEGIN ` line was found. -/
  pemDecodeBlock : GoString → Option PemBlock
  /-- `x509.ParsePKCS8PrivateKey`. -/
  ParsePKCS8PrivateKey : GoString → Except GoString PrivateKey

/-- `SigningMethodECDSA.Sign` (`ecdsa.go`): the key must be an
`*ecdsa.PrivateKey`, and after signing its curve size must be the method's. -/
def SigningMethodECDSA.Sign (env : Env) (CurveBits : Nat) (signingString : GoString)
    (key : PrivateKey) : GoString × Option JwtErr :=
  match key with
  | .ecdsa curveBits d =>
    match env.ecdsaSign curveBits d signingString with
    | .ok sig => if CurveBits ≠ curveBits then ([], some .ErrInvalidKey) else (sig, none)
    | .error e => ([], some e)
  | _ => ([], some .ErrInvalidKeyType)

/-- `t.Method.Sign(sstr, key)`. -/
def SigningMethod.Sign (env : Env) (m : SigningMethod) (signingString : GoString)
    (key : PrivateKey) : GoString × Option JwtErr :=
  match m.CurveBits with
  | some bits => SigningMethodECDSA.Sign env bits signingString key
  | Option.none => env.signOther m signingString key

/-- `Token.SignedString` (`token.go`): on any error the string is empty. -/
def Token.SignedString (env : Env) (t : Token) (key : PrivateKey) : GoString × Option JwtErr :=
  match env.SigningString t with
  | .error e => ([], some e)
  | .ok sstr =>
    match t.Method.Sign env sstr key with
    | (_, some e) => ([], some e)
    | (sig, Option.none) => (sstr ++ byteOfNat 46 :: sig, Option.none)

/-! ## `encoding/json`: `Unmarshal` into `*AppleAuthToken` -/

/-- The field whose tag is exactly the key. -/
def exactField (key : GoString) : Option Field :=
  [Field.AccessToken, .ExpiresIn, .IDToken, .RefreshToken, .TokenType].find?
    (fun f => decide (f.tag = key))

/-- Field lookup of the decoder: exact tag first, folded match otherwise. -/
def findField (env : Env) (key : GoString) : Option Field :=
  match exactField key with
  | some f => some f
  | none => env.foldedField key

/-- The word `UnmarshalTypeError.Value` uses for a JSON value. -/
def JSON.kind : JSON → GoString
  | .null => ascii "null"
  | .bool _ => ascii "bool"
  | .int _ => ascii "number"
  | .real _ => ascii "number"
  | .str _ => ascii "string"
  | .arr _ => ascii "array"
  | .obj _ => ascii "object"

/-- Store into a `string` field: a JSON string is stored, `null` leaves the
field alone, anything else is an `UnmarshalTypeError`. -/
def storeString (old : GoString) (tag : GoString) (v : JSON) : GoString × Option GoError :=
  match v with
  | .str s => (s, none)
  | .null => (old, none)
  | other => (old, some (.jsonUnmarshalType other.kind tag))

/-- Store into an `int64` field: the literal goes through
`strconv.ParseInt(lit, 10, 64)`, which rejects fractions, exponents and values
outside the `int64` range. -/
def storeInt64 (old : Int) (tag : GoString) (v : JSON) : Int × Option GoError :=
  match v with
  | .int n =>
    if -(2 : Int) ^ 63 ≤ n ∧ n < (2 : Int) ^ 63 then (n, none)
    else (old, some (.jsonUnmarshalType v.kind tag))
  | .null => (old, none)
  | other => (old, some (.jsonUnmarshalType other.kind tag))

/-- Store one member value into the field it selects. -/
def storeField (t : AppleAuthToken) (f : Field) (v : JSON) : AppleAuthToken × Option GoError :=
  match f with
  | .AccessToken =>
    ({ t with AccessToken := (storeString t.AccessToken f.tag v).1 }, (storeString t.AccessToken f.tag v).2)
  | .ExpiresIn =>
    ({ t with ExpiresIn := (storeInt64 t.ExpiresIn f.tag v).1 }, (storeInt64 t.ExpiresIn f.tag v).2)
  | .IDToken =>
    ({ t with IDToken := (storeString t.IDToken f.tag v).1 }, (storeString t.IDToken f.tag v).2)
  | .RefreshToken =>
    ({ t with RefreshToken := (storeString t.RefreshToken f.tag v).1 }, (storeString t.RefreshToken f.tag v).2)
  | .TokenType =>
    ({ t with TokenType := (storeString t.TokenType f.tag v).1 }, (storeString t.TokenType f.tag v).2)

/-- `d.saveError`: only the first error is kept. -/
def saveError (saved : Option GoError) (e : Option GoError) : Option GoError :=
  match saved with
  | some s => some s
  | none => e

/-- The object loop of the decoder: members are taken in order, a member that
selects no field is skipped, later members overwrite earlier ones. -/
def decodeMembers (env : Env) :
    List (GoString × JSON) → AppleAuthToken × Option GoError → AppleAuthToken × Option GoError
  | [], acc => acc
  | (key, v) :: rest, acc =>
    match findField env key with
    | none => decodeMembers env rest acc
    | some f => decodeMembers env rest ((storeField acc.1 f v).1, saveError acc.2 (storeField acc.1 f v).2)

/-- `new(AppleAuthToken)`: the zero value. -/
def AppleAuthToken.zero : AppleAuthToken :=
  { AccessToken := [], ExpiresIn := 0, IDToken := [], RefreshToken := [], TokenType := [] }

/-- `json.Unmarshal(data, t)` with `t := new(AppleAuthToken)`: the struct
after the call and the error returned. -/
def jsonUnmarshal (env : Env) (data : GoString) : AppleAuthToken × Option GoError :=
  match env.jsonScan data with
  | .error msg => (AppleAuthToken.zero, some (.jsonSyntax msg))
  | .ok .null => (AppleAuthToken.zero, none)
  | .ok (.obj members) => decodeMembers env members (AppleAuthToken.zero, none)
  | .ok other => (AppleAuthToken.zero, some (.jsonUnmarshalType other.kind (ascii "AppleAuthToken")))

/-! ## `GetAppleToken` -/

/-- What a call does to the outside world, in order. -/
inductive Event where
  | now (unix : Int)
  | signedString (token : Token) (key : PrivateKey)
  | post (req : Request)

/-- A finished call: the returned pair, the events it caused, and the number
of clock readings taken so far. -/
structure Run (α : Type) where
  ret : α
  trace : List Event
  tick : Nat

/-- `GetAppleToken` (lines 76-119), started when the clock has been read
`tick` times. -/
def GetAppleToken (env : Env) (a : AppleConfig) (code : GoString) (expireTime : Int)
    (tick : Nat) : Run (Option AppleAuthToken × Option GoError) :=
  match a.AESCert with
  | none => { ret := (none, some (.errorsNew (ascii "missing cert"))), trace := [], tick := tick }
  | some cert =>
    let iat := env.clock tick
    let exp := wrapInt64 (env.clock (tick + 1) + expireTime)
    let token := NewWithClaims SigningMethodES256 (.MapClaims
      [(ascii "iss", .str a.TeamID), (ascii "iat", .int64 iat), (ascii "exp", .int64 exp),
       (ascii "aud", .str AUDLink), (ascii "sub", .str a.ClientID)])
    let token := { token with
      Header := [(ascii "kid", .str a.KeyID), (ascii "alg", .str (ascii "ES256"))] }
    let tokenString := (token.SignedString env cert).1
    let v : Values := []
    let v := v.Set (ascii "client_id") a.ClientID
    let v := v.Set (ascii "client_secret") tokenString
    let v := v.Set (ascii "code") code
    let v := v.Set (ascii "grant_type") AppleGrantType
    let vs := v.Encode
    let req : Request := { url := AppleAuthURL, type := TypeUrlencoded, body := vs }
    let trace := [Event.now iat, .now (env.clock (tick + 1)), .signedString token cert, .post req]
    match env.End req with
    | .failed errs => { ret := (none, some (.fmtErrorf errs)), trace := trace, tick := tick + 2 }
    | .response StatusCode body =>
      if StatusCode ≠ 200 then
        { ret := (none, some (.errorsNew (ascii "post failed : resp code is not 200"))),
          trace := trace, tick := tick + 2 }
      else
        match jsonUnmarshal env body with
        | (_, some err) => { ret := (none, some err), trace := trace, tick := tick + 2 }
        | (t, none) => { ret := (some t, none), trace := trace, tick := tick + 2 }

/-! ## `jwt-go`: `Parse` -/

/-- `ValidationErrorMalformed`. -/
def ValidationErrorMalformed : Nat := 1
/-- `ValidationErrorUnverifiable`. -/
def ValidationErrorUnverifiable : Nat := 2
/-- `ValidationErrorSignatureInvalid`. -/
def ValidationErrorSignatureInvalid : Nat := 4
/-- `ValidationErrorClaimsInvalid`. -/
def ValidationErrorClaimsInvalid : Nat := 512

/-- `NewValidationError(text, flags)`. -/
def NewValidationError (text : GoString) (flags : Nat) : ValidationError :=
  { Inner := none, Errors := flags, text := text }

/-- `ValidationError.valid()`: no error bit is set. -/
def ValidationError.valid (e : ValidationError) : Bool :=
  e.Errors == 0

/-- ASCII lower case of one byte. -/
def lowerByte (c : Byte) : Byte :=
  if 65 ≤ c.val ∧ c.val ≤ 90 then byteOfNat (c.val + 32) else c

/-- `strings.HasPrefix(strings.ToLower(tokenString), "bearer ")`. -/
def startsWithBearer (tokenString : GoString) : Bool :=
  (tokenString.take 7).map lowerByte == ascii "bearer "

/-- `Verify` of the five method families (`hmac.go`, `rsa.go`, `rsa_pss.go`,
`ecdsa.go`, `none.go`), up to the cryptographic check: each family accepts
one dynamic key type and returns an error for any other key, `nil` included. -/
def SigningMethod.Verify (env : Env) (m : SigningMethod) (signingString signature : GoString)
    (key : Option VerifyKey) : Option JwtErr :=
  match m with
  | .HS256 | .HS384 | .HS512 =>
    match key with
    | some (.bytes k) =>
      match env.DecodeSegment signature with
      | .error e => some e
      | .ok sig => env.cryptoVerify m (.bytes k) signingString sig
    | _ => some .ErrInvalidKeyType
  | .RS256 | .RS384 | .RS512 =>
    match env.DecodeSegment signature with
    | .error e => some e
    | .ok sig =>
      match key with
      | some (.rsaPublic n e) => env.cryptoVerify m (.rsaPublic n e) signingString sig
      | _ => some .ErrInvalidKeyType
  | .PS256 | .PS384 | .PS512 =>
    match env.DecodeSegment signature with
    | .error e => some e
    | .ok sig =>
      match key with
      | some (.rsaPublic n e) => env.cryptoVerify m (.rsaPublic n e) signingString sig
      | _ => some .ErrInvalidKey
  | .ES256 | .ES384 | .ES512 =>
    match env.DecodeSegment signature with
    | .error e => some e
    | .ok sig =>
      match key with
      | some (.ecdsaPublic bits x y) => env.cryptoVerify m (.ecdsaPublic bits x y) signingString sig
      | _ => some .ErrInvalidKeyType
  | .none =>
    match key with
    | some .unsafeNoneMagicConstant =>
      if signature ≠ [] then some .noneWithSignature else Option.none
    | _ => some .NoneSignatureTypeDisallowedError

/-- `Parser.ParseUnverified` (`parser.go`) with `MapClaims`: the token (nil
when the segment count is wrong), the three parts, and the error. -/
def ParseUnverified (env : Env) (tokenString : GoString) :
    Option Token × List GoString × Option ValidationError :=
  let parts := splitOn (byteOfNat 46) tokenString
  match parts with
  | [p0, p1, _] =>
    let token : Token :=
      { Raw := tokenString, Method := .none, Header := [], Claims := .MapClaims [], Signature := [],
        Valid := false }
    match env.DecodeSegment p0 with
    | .error err =>
      if startsWithBearer tokenString then
        (some token, parts,
          some (NewValidationError (ascii "tokenstring should not contain 'bearer '")
            ValidationErrorMalformed))
      else
        (some token, parts, some { Inner := some err, Errors := ValidationErrorMalformed, text := [] })
    | .ok headerBytes =>
      match env.jsonUnmarshalMap headerBytes with
      | .error err =>
        (some token, parts, some { Inner := some err, Errors := ValidationErrorMalformed, text := [] })
      | .ok header =>
        let token := { token with Header := header }
        match env.DecodeSegment p1 with
        | .error err =>
          (some token, parts,
            some { Inner := some err, Errors := ValidationErrorMalformed, text := [] })
        | .ok claimBytes =>
          match env.jsonDecodeClaims claimBytes with
          | .error err =>
            (some token, parts,
              some { Inner := some err, Errors := ValidationErrorMalformed, text := [] })
          | .ok claims =>
            let token := { token with Claims := .MapClaims claims }
            match token.Header.index (ascii "alg") with
            | some (.str method) =>
              match GetSigningMethod method with
              | Option.none =>
                (some token, parts,
                  some (NewValidationError (ascii "signing method (alg) is unavailable.")
                    ValidationErrorUnverifiable))
              | some m => (some { token with Method := m }, parts, Option.none)
            | _ =>
              (some token, parts,
                some (NewValidationError (ascii "signing method (alg) is unspecified.")
                  ValidationErrorUnverifiable))
  | _ =>
    (Option.none, parts,
      some (NewValidationError (ascii "token contains an invalid number of segments")
        ValidationErrorMalformed))

/-- `jwt.Parse(tokenString, keyFunc)`, that is `Parser.ParseWithClaims` of a
zero `Parser` with `MapClaims`: after the unverified parse the key function
is asked for the key, the claims are validated, and the signature is verified
with that key; the error is nil only when no error bit was set.  `keyFunc` is never nil here. -/
def jwtParse (env : Env) (tokenString : GoString)
    (keyFunc : Token → Option VerifyKey × Option JwtErr) :
    Option Token × Option ValidationError :=
  match ParseUnverified env tokenString with
  | (token, _, some err) => (token, some err)
  | (Option.none, _, Option.none) => (Option.none, Option.none)
  | (some token, parts, Option.none) =>
    match keyFunc token with
    | (_, some err) =>
      (some token, some { Inner := some err, Errors := ValidationErrorUnverifiable, text := [] })
    | (key, Option.none) =>
      let vErr : ValidationError :=
        match env.claimsValid token.Claims with
        | some e => e
        | Option.none => { Inner := Option.none, Errors := 0, text := [] }
      let token := { token with Signature := parts.getD 2 [] }
      let signingString := parts.getD 0 [] ++ byteOfNat 46 :: parts.getD 1 []
      let vErr : ValidationError :=
        match token.Method.Verify env signingString token.Signature key with
        | some err =>
          { vErr with Inner := some err, Errors := vErr.Errors ||| ValidationErrorSignatureInvalid }
        | Option.none => vErr
      if vErr.valid then (some { token with Valid := true }, Option.none)
      else (some token, some vErr)

/-! ## `GetUserByToken` -/

/-- `fmt.Sprintf("%v", v)`: a string prints as itself. -/
def Sprintf_v (env : Env) (v : Value) : GoString :=
  match v with
  | .str s => s
  | other => env.Sprint other

/-- Lines 135-145 of `GetUserByToken`: the user read off the claim map. -/
def userOfClaims (env : Env) (claims : GoMap) : AppleUser :=
  let u : AppleUser := { ID := [], Email := [] }
  let u :=
    match claims.index (ascii "email") with
    | some v => { u with Email := Sprintf_v env v }
    | Option.none => u
  let u :=
    match claims.index (ascii "sub") with
    | some v => { u with ID := Sprintf_v env v }
    | Option.none => u
  u

/-- `GetUserByToken` (lines 121-146).  The key function of line 122 returns
`nil, nil`.  A nil token with a nil error would make line 129 panic. -/
def GetUserByToken (env : Env) (token : GoString) :
    Outcome (Option AppleUser × Option GoError) :=
  match jwtParse env token (fun _ => (Option.none, Option.none)) with
  | (_, some err) => .returned (Option.none, some (.jwt err))
  | (Option.none, Option.none) => .panicked (ascii "invalid memory address or nil pointer dereference")
  | (some t, Option.none) =>
    match t.Claims.asMapClaims with
    | Option.none => .returned (Option.none, some (.errorsNew (ascii "fail decode")))
    | some claims => .returned (some (userOfClaims env claims), Option.none)

/-! ## `LoadP8CertByByte` -/

/-- `pemStart` of `encoding/pem`. -/
def pemStart : GoString := byteOfNat 10 :: ascii "-----BEGIN "

/-- `bytes.Contains(data, sub)`. -/
def bytesContains (sub : GoString) : GoString → Bool
  | [] => sub.isEmpty
  | c :: s => sub.isPrefixOf (c :: s) || bytesContains sub s

/-- `pem.Decode`, first result: when the data neither starts with
`-----BEGIN ` nor holds it at the start of a line, no block is found and the
result is nil. -/
def pemDecode (env : Env) (data : GoString) : Option PemBlock :=
  if pemStart.tail.isPrefixOf data || bytesContains pemStart data then env.pemDecodeBlock data
  else Option.none

/-- `LoadP8CertByByte` (lines 46-54): the configuration after the call and
the error returned.  Line 48 reads `block.Bytes` without a nil check. -/
def LoadP8CertByByte (env : Env) (a : AppleConfig) (str : GoString) :
    Outcome (AppleConfig × Option GoError) :=
  match pemDecode env str with
  | Option.none => .panicked (ascii "invalid memory address or nil pointer dereference")
  | some block =>
    match env.ParsePKCS8PrivateKey block.Bytes with
    | .error msg => .returned (a, some (.x509 msg))
    | .ok cert => .returned ({ a with AESCert := some cert }, Option.none)

/-! ## Observations on a run and a simulated world -/

/-- The token handed to `SignedString` during a run, if any. -/
def signedToken : List Event → Option Token
  | [] => Option.none
  | .signedString token _ :: _ => some token
  | _ :: rest => signedToken rest

/-- The request sent during a run, if any. -/
def postedRequest : List Event → Option Request
  | [] => Option.none
  | .post req :: _ => some req
  | _ :: rest => postedRequest rest

/-- The `int64` stored under a key of a claim map. -/
def GoMap.int64At (m : GoMap) (k : GoString) : Option Int :=
  match m.index k with
  | some (.int64 v) => some v
  | _ => Option.none

/-- The string stored under a key of a claim map. -/
def GoMap.strAt (m : GoMap) (k : GoString) : Option GoString :=
  match m.index k with
  | some (.str v) => some v
  | _ => Option.none

/-- The `int64` claim under a key of a `MapClaims`. -/
def Claims.int64At (c : Claims) (k : GoString) : Option Int :=
  c.asMapClaims.bind (fun m => m.int64At k)

/-- The string claim under a key of a `MapClaims`. -/
def Claims.strAt (c : Claims) (k : GoString) : Option GoString :=
  c.asMapClaims.bind (fun m => m.strAt k)

/-- A simulated world for running the package on concrete inputs: the given
clock, an endpoint that answers every request with `answer`, a JSON scanner
that knows the text `doc` with tree `tree`, segment and map decoders that
know the listed texts, a signer that returns a fixed signature, a verifier
that accepts, a PEM decoder that takes whatever follows a `-----BEGIN ` line
for a block, and a key parser that rejects. -/
def simEnv (clock : Nat → Int) (answer : EndResult) (doc : GoString) (tree : JSON)
    (segments : List (GoString × GoString)) (maps : List (GoString × GoMap)) : Env :=
  { clock := clock
    SigningString := fun _ => .ok (ascii "header.claims")
    ecdsaSign := fun _ _ _ => .ok (ascii "signature")
    signOther := fun _ _ _ => ([], some .ErrInvalidKeyType)
    End := fun _ => answer
    jsonScan := fun data => if data = doc then .ok tree else .error (ascii "invalid character")
    foldedField := fun _ => Option.none
    DecodeSegment := fun seg =>
      match segments.find? (fun e => decide (e.1 = seg)) with
      | some e => .ok e.2
      | Option.none => .error (.base64 (ascii "illegal base64 data"))
    jsonUnmarshalMap := fun data =>
      match maps.find? (fun e => decide (e.1 = data)) with
      | some e => .ok e.2
      | Option.none => .error (.json (ascii "invalid character"))
    jsonDecodeClaims := fun data =>
      match maps.find? (fun e => decide (e.1 = data)) with
      | some e => .ok e.2
      | Option.none => .error (.json (ascii "invalid character"))
    claimsValid := fun _ => Option.none
    cryptoVerify := fun _ _ _ _ => Option.none
    Sprint := fun _ => ascii "?"
    pemDecodeBlock := fun data =>
      some { Type_ := ascii "PRIVATE KEY", Headers := [], Bytes := data }
    ParsePKCS8PrivateKey := fun _ => .error (ascii "x509: failed to parse private key") }

/-- A configuration holding a P-256 key. -/
def sampleConfig : AppleConfig :=
  { TeamID := ascii "TEAM", ClientID := ascii "com.example.app", KeyID := ascii "KEY",
    AESCert := some (.ecdsa 256 7) }

/-- A simulated world whose endpoint answers every request with `answer` and
whose clock advances by one second between two readings. -/
def tickingEnv (answer : EndResult) : Env :=
  simEnv (fun n => 1700000000 + n) answer [] .null [] []

/-- A code with `&`, `=`, `+`, `%`, a space, `;` and the two bytes of a
non-ASCII letter. -/
def specialCode : GoString := ascii "a&b=c+d%e f;" ++ [byteOfNat 195, byteOfNat 169]

/-- The body of the example answer of the token endpoint, with the given
decimal literal for `expires_in`. -/
def tokenDoc (expiresIn : String) : GoString :=
  ascii ("\x7b\"access_token\":\"a\",\"expires_in\":" ++ expiresIn ++ ",\"id_token\":\"b\"," ++
    "\"refresh_token\":\"c\",\"token_type\":\"Bearer\"\x7d")

/-- The token of the example answer, with the given `ExpiresIn`. -/
def exampleToken (expiresIn : Int) : AppleAuthToken :=
  { AccessToken := ascii "a", ExpiresIn := expiresIn, IDToken := ascii "b",
    RefreshToken := ascii "c", TokenType := ascii "Bearer" }

/-- The syntax tree of `tokenDoc`, with the given number for `expires_in`. -/
def tokenTree (expiresIn : Int) : JSON :=
  .obj [(ascii "access_token", .str (ascii "a")), (ascii "expires_in", .int expiresIn),
    (ascii "id_token", .str (ascii "b")), (ascii "refresh_token", .str (ascii "c")),
    (ascii "token_type", .str (ascii "Bearer"))]

/-- A simulated world whose endpoint answers 200 with the example body. -/
def tokenEnv : Env :=
  simEnv (fun _ => 1700000000) (.response 200 (tokenDoc "3600")) (tokenDoc "3600")
    (tokenTree 3600) [] []

/-- A simulated world whose endpoint answers 200 with the example body in
which `expires_in` is 2^63, one more than the largest `int64`. -/
def overflowEnv : Env :=
  simEnv (fun _ => 1700000000) (.response 200 (tokenDoc "9223372036854775808"))
    (tokenDoc "9223372036854775808") (tokenTree 9223372036854775808) [] []

/-- The JSON value that stores the field `f` of `T`. -/
def expectedJSON (T : AppleAuthToken) : Field → JSON
  | .AccessToken => .str T.AccessToken
  | .ExpiresIn => .int T.ExpiresIn
  | .IDToken => .str T.IDToken
  | .RefreshToken => .str T.RefreshToken
  | .TokenType => .str T.TokenType

/-- The field `f` of `t` holds what it holds in `T`. -/
def agreesAt (T t : AppleAuthToken) : Field → Prop
  | .AccessToken => t.AccessToken = T.AccessToken
  | .ExpiresIn => t.ExpiresIn = T.ExpiresIn
  | .IDToken => t.IDToken = T.IDToken
  | .RefreshToken => t.RefreshToken = T.RefreshToken
  | .TokenType => t.TokenType = T.TokenType

/-- A configuration holding an RSA key, as `x509.ParsePKCS8PrivateKey`
returns for an RSA key file. -/
def rsaConfig : AppleConfig :=
  { TeamID := ascii "TEAM", ClientID := ascii "com.example.app", KeyID := ascii "KEY",
    AESCert := some (.rsa 3233 2753) }

/-- An identity token with header `{"alg":"RS256"}`, payload
`{"sub":"12345"}` and signature bytes `sig`. -/
def subOnlyToken : GoString := ascii "eyJhbGciOiJSUzI1NiJ9.eyJzdWIiOiIxMjM0NSJ9.c2ln"

/-- A simulated world whose decoders know the segments of `subOnlyToken`. -/
def identityEnv : Env :=
  simEnv (fun _ => 1700000000) (.response 200 []) [] .null
    [(ascii "eyJhbGciOiJSUzI1NiJ9", ascii "\x7b\"alg\":\"RS256\"\x7d"),
     (ascii "eyJzdWIiOiIxMjM0NSJ9", ascii "\x7b\"sub\":\"12345\"\x7d"),
     (ascii "c2ln", ascii "sig")]
    [(ascii "\x7b\"alg\":\"RS256\"\x7d", [(ascii "alg", .str (ascii "RS256"))]),
     (ascii "\x7b\"sub\":\"12345\"\x7d", [(ascii "sub", .str (ascii "12345"))])]

/-- The token of lines 82-93 for the two clock readings `now1`, `now2`. -/
def assertion (a : AppleConfig) (now1 now2 expireTime : Int) : Token :=
  { NewWithClaims SigningMethodES256 (.MapClaims
      [(ascii "iss", .str a.TeamID), (ascii "iat", .int64 now1),
       (ascii "exp", .int64 (wrapInt64 (now2 + expireTime))),
       (ascii "aud", .str AUDLink), (ascii "sub", .str a.ClientID)]) with
    Header := [(ascii "kid", .str a.KeyID), (ascii "alg", .str (ascii "ES256"))] }

/-- The request of lines 97-104 for the string `tokenString` of line 96. -/
def exchangeRequest (a : AppleConfig) (tokenString code : GoString) : Request :=
  { url := AppleAuthURL, type := TypeUrlencoded,
    body := Values.Encode (Values.Set (Values.Set (Values.Set (Values.Set [] (ascii "client_id")
      a.ClientID) (ascii "client_secret") tokenString) (ascii "code") code) (ascii "grant_type")
      AppleGrantType) }

/-! ## Theorems -/

/-- Without a key the run ends at line 79. -/
theorem GetAppleToken_nil_cert (env : Env) (a : AppleConfig) (code : GoString)
    (expireTime : Int) (tick : Nat) (h : a.AESCert = Option.none) :
    GetAppleToken env a code expireTime tick =
      { ret := (Option.none, some (.errorsNew (ascii "missing cert"))), trace := [], tick := tick } := by
  unfold GetAppleToken
  rw [h]

/-- With a key loaded the run reads the clock twice, signs the assertion and
posts the request, in this order, whatever the endpoint answers. -/
theorem GetAppleToken_trace (env : Env) (a : AppleConfig) (code : GoString) (expireTime : Int)
    (tick : Nat) (cert : PrivateKey) (h : a.AESCert = some cert) :
    (GetAppleToken env a code expireTime tick).trace =
      [Event.now (env.clock tick), .now (env.clock (tick + 1)),
       .signedString (assertion a (env.clock tick) (env.clock (tick + 1)) expireTime) cert,
       .post (exchangeRequest a
         ((assertion a (env.clock tick) (env.clock (tick + 1)) expireTime).SignedString env cert).1
         code)] := by
  unfold GetAppleToken
  rw [h]
  simp only []
  split
  · rfl
  · split
    · rfl
    · split <;> rfl

/-- The value returned with a key loaded, by the answer of the endpoint to
the request of the run. -/
theorem GetAppleToken_ret (env : Env) (a : AppleConfig) (code : GoString) (expireTime : Int)
    (tick : Nat) (cert : PrivateKey) (h : a.AESCert = some cert) :
    (GetAppleToken env a code expireTime tick).ret =
      match env.End (exchangeRequest a
          ((assertion a (env.clock tick) (env.clock (tick + 1)) expireTime).SignedString env cert).1
          code) with
      | .failed errs => (Option.none, some (.fmtErrorf errs))
      | .response StatusCode body =>
        if StatusCode ≠ 200 then
          (Option.none, some (.errorsNew (ascii "post failed : resp code is not 200")))
        else
          match jsonUnmarshal env body with
          | (_, some err) => (Option.none, some err)
          | (t, Option.none) => (some t, Option.none) := by
  unfold GetAppleToken exchangeRequest assertion
  rw [h]
  simp only []
  split
  · rfl
  · split
    · rfl
    · split <;> rfl

/-- C1: with no key loaded (as after `InitAppleConfig`), `GetAppleToken`
returns the error "missing cert" and no token, for every code and lifetime,
and nothing has happened before: the clock is not read, nothing is signed and
no request is built or sent. -/
theorem GetAppleToken_missing_cert (env : Env) (a : AppleConfig) (code : GoString)
    (expireTime : Int) (tick : Nat) (h : a.AESCert = Option.none) :
    GetAppleToken env a code expireTime tick =
      { ret := (Option.none, some (.errorsNew (ascii "missing cert"))), trace := [], tick := tick } :=
  GetAppleToken_nil_cert env a code expireTime tick h

/-- Witness of C1 at a configuration fresh from `InitAppleConfig`. -/
theorem GetAppleToken_missing_cert_witness :
    (InitAppleConfig (ascii "TEAM") (ascii "com.example.app") (ascii "KEY")).AESCert = Option.none ∧
    GetAppleToken (tickingEnv (.response 200 []))
      (InitAppleConfig (ascii "TEAM") (ascii "com.example.app") (ascii "KEY")) (ascii "c0de") 300 0 =
      { ret := (Option.none, some (.errorsNew (ascii "missing cert"))), trace := [], tick := 0 } :=
  ⟨rfl, GetAppleToken_missing_cert _ _ _ _ _ rfl⟩

/-- C4: whenever the endpoint answers the request of the run with a status
code other than 200 (201 and 204 included, whatever the body), the call
returns the error "post failed : resp code is not 200" and no token; and a
token is returned only if the endpoint answered the request with status 200. -/
theorem GetAppleToken_status_not_200 (env : Env) (a : AppleConfig) (code : GoString)
    (expireTime : Int) (tick : Nat) :
    (∀ req StatusCode body,
      postedRequest (GetAppleToken env a code expireTime tick).trace = some req →
      env.End req = .response StatusCode body → StatusCode ≠ 200 →
      (GetAppleToken env a code expireTime tick).ret =
        (Option.none, some (.errorsNew (ascii "post failed : resp code is not 200")))) ∧
    (∀ t, (GetAppleToken env a code expireTime tick).ret.1 = some t →
      ∃ req body, postedRequest (GetAppleToken env a code expireTime tick).trace = some req ∧
        env.End req = .response 200 body) := by
  cases h : a.AESCert with
  | none =>
    rw [GetAppleToken_nil_cert env a code expireTime tick h]
    constructor
    · intro req StatusCode body hreq
      simp [postedRequest] at hreq
    · intro t ht
      simp at ht
  | some cert =>
    rw [GetAppleToken_trace env a code expireTime tick cert h,
      GetAppleToken_ret env a code expireTime tick cert h]
    constructor
    · intro req StatusCode body hreq hEnd hne
      simp only [postedRequest, Option.some.injEq] at hreq
      subst hreq
      rw [hEnd]
      simp [hne]
    · intro t ht
      refine ⟨_, ?_, rfl, ?_⟩
      · exact match env.End (exchangeRequest a
          ((assertion a (env.clock tick) (env.clock (tick + 1)) expireTime).SignedString env cert).1
          code) with
          | .failed _ => []
          | .response _ body => body
      · revert ht
        cases hE : env.End (exchangeRequest a
          ((assertion a (env.clock tick) (env.clock (tick + 1)) expireTime).SignedString env cert).1
          code) with
        | failed errs => simp
        | response StatusCode body =>
          by_cases hs : StatusCode = 200
          · subst hs
            simp
          · simp [hs]

/-- Witness of C4: an endpoint answering 204 with the example token body. -/
theorem GetAppleToken_status_not_200_witness :
    (tickingEnv (.response 204 (tokenDoc "3600"))).End
      (exchangeRequest sampleConfig (ascii "header.claims.signature") (ascii "c0de")) =
      .response 204 (tokenDoc "3600") ∧
    (204 : Int) ≠ 200 ∧
    (GetAppleToken (tickingEnv (.response 204 (tokenDoc "3600"))) sampleConfig (ascii "c0de")
      300 0).ret =
      (Option.none, some (.errorsNew (ascii "post failed : resp code is not 200"))) :=
  ⟨rfl, by decide,
    (GetAppleToken_status_not_200 (tickingEnv (.response 204 (tokenDoc "3600"))) sampleConfig
      (ascii "c0de") 300 0).1 _ 204 (tokenDoc "3600")
      (by rw [GetAppleToken_trace _ _ _ _ _ _ rfl]; rfl) rfl (by decide)⟩

/-- C5 as stated fails: when the clock moves on one second between the reading
for `iat` and the reading for `exp`, a lifetime of 300 gives
`exp - iat = 301`. -/
theorem GetAppleToken_exp_minus_iat_counterexample :
    ((signedToken (GetAppleToken (tickingEnv (.response 200 [])) sampleConfig (ascii "c0de")
        300 0).trace).bind (fun t => t.Claims.int64At (ascii "iat")) = some 1700000000) ∧
    ((signedToken (GetAppleToken (tickingEnv (.response 200 [])) sampleConfig (ascii "c0de")
        300 0).trace).bind (fun t => t.Claims.int64At (ascii "exp")) = some 1700000301) ∧
    ¬ ((1700000301 : Int) - 1700000000 = 300) := by
  rw [GetAppleToken_trace _ _ _ _ _ _ (rfl : sampleConfig.AESCert = some (.ecdsa 256 7))]
  refine ⟨by decide, by decide, by decide⟩

/-- C5, amended: with a key loaded and a lifetime that is an `int64`, whenever
the two clock readings of the call give the same second, the claim set that
is signed has `iat` equal to that reading and `exp` equal to the reading plus
the lifetime in `int64` arithmetic, so that `exp - iat == lifetime` holds in
`int64` arithmetic, and as an equation of integers when the sum stays inside
the `int64` range. -/
theorem GetAppleToken_exp_minus_iat (env : Env) (a : AppleConfig) (code : GoString)
    (lifetime : Int) (tick : Nat) (cert : PrivateKey) (h : a.AESCert = some cert)
    (hlife : -(2 : Int) ^ 63 ≤ lifetime ∧ lifetime < (2 : Int) ^ 63)
    (hsame : env.clock (tick + 1) = env.clock tick) :
    ∃ iat exp,
      (signedToken (GetAppleToken env a code lifetime tick).trace).bind
        (fun t => t.Claims.int64At (ascii "iat")) = some iat ∧
      (signedToken (GetAppleToken env a code lifetime tick).trace).bind
        (fun t => t.Claims.int64At (ascii "exp")) = some exp ∧
      iat = env.clock tick ∧
      exp = wrapInt64 (env.clock (tick + 1) + lifetime) ∧
      wrapInt64 (exp - iat) = lifetime ∧
      (-(2 : Int) ^ 63 ≤ env.clock tick + lifetime → env.clock tick + lifetime < (2 : Int) ^ 63 →
        exp - iat = lifetime) := by
  rw [GetAppleToken_trace env a code lifetime tick cert h]
  refine ⟨env.clock tick, wrapInt64 (env.clock (tick + 1) + lifetime), ?_, ?_, rfl, rfl, ?_, ?_⟩
  · have h1 : ascii "iss" ≠ ascii "iat" := by decide
    simp [signedToken, assertion, NewWithClaims, Claims.int64At, Claims.asMapClaims, GoMap.int64At, GoMap.index, List.find?, h1]
  · have h1 : ascii "iss" ≠ ascii "exp" := by decide
    have h2 : ascii "iat" ≠ ascii "exp" := by decide
    simp [signedToken, assertion, NewWithClaims, Claims.int64At, Claims.asMapClaims, GoMap.int64At, GoMap.index, List.find?, h1, h2]
  · rw [hsame]
    unfold wrapInt64
    omega
  · intro hlo hhi
    rw [hsame]
    unfold wrapInt64
    omega

/-- Witness of the amended C5: a clock that stands still during the call. -/
theorem GetAppleToken_exp_minus_iat_witness :
    ∃ iat exp,
      (signedToken (GetAppleToken (simEnv (fun _ => 1700000000) (.response 200 []) [] .null [] [])
        sampleConfig (ascii "c0de") 300 0).trace).bind
        (fun t => t.Claims.int64At (ascii "iat")) = some iat ∧
      (signedToken (GetAppleToken (simEnv (fun _ => 1700000000) (.response 200 []) [] .null [] [])
        sampleConfig (ascii "c0de") 300 0).trace).bind
        (fun t => t.Claims.int64At (ascii "exp")) = some exp ∧
      exp - iat = 300 :=
  match GetAppleToken_exp_minus_iat (simEnv (fun _ => 1700000000) (.response 200 []) [] .null [] [])
    sampleConfig (ascii "c0de") 300 0 (.ecdsa 256 7) rfl (by decide) rfl with
  | ⟨iat, exp, h1, h2, _, _, _, h6⟩ => ⟨iat, exp, h1, h2, h6 (by decide) (by decide)⟩

/-! ### Form encoding -/

/-- A code below 256 is the value of its byte. -/
theorem byteOfNat_val (n : Nat) (h : n < 256) : (byteOfNat n).val = n := by
  simp [byteOfNat, Nat.mod_eq_of_lt h]

/-- A byte is the byte of its own code. -/
theorem byteOfNat_self (c : Byte) : byteOfNat c.val = c := by
  apply Fin.ext
  simp [byteOfNat, Nat.mod_eq_of_lt c.isLt]

/-- The sixteen digits of `upperhex` are hex digits, decode to their index, and
are none of `&`, `=`, `;`. -/
theorem upperhex_facts : ∀ n, n < 16 →
    ishex (upperhex n) = true ∧ unhex (upperhex n) = n ∧
    (upperhex n).val ≠ 38 ∧ (upperhex n).val ≠ 61 ∧ (upperhex n).val ≠ 59 := by
  decide

/-- A byte left unescaped is none of `%`, `+`, `&`, `=`, `;`. -/
theorem shouldEscape_false (c : Byte) (h : shouldEscape c = false) :
    c.val ≠ 37 ∧ c.val ≠ 43 ∧ c.val ≠ 38 ∧ c.val ≠ 61 ∧ c.val ≠ 59 := by
  unfold shouldEscape at h
  split at h
  · omega
  · split at h
    · omega
    · cases h

/-- Unescaping a leading `+`. -/
theorem QueryUnescape_plus (s : GoString) :
    QueryUnescape (byteOfNat 43 :: s) = (QueryUnescape s).map (fun t => byteOfNat 32 :: t) := by
  have h1 : (byteOfNat 43).val ≠ 37 := by decide
  have h2 : (byteOfNat 43).val = 43 := by decide
  conv_lhs => unfold QueryUnescape
  rw [if_neg h1, if_pos h2]

/-- Unescaping a leading byte that is neither `%` nor `+`. -/
theorem QueryUnescape_plain (c : Byte) (s : GoString) (h37 : c.val ≠ 37) (h43 : c.val ≠ 43) :
    QueryUnescape (c :: s) = (QueryUnescape s).map (fun t => c :: t) := by
  conv_lhs => unfold QueryUnescape
  rw [if_neg h37, if_neg h43]

/-- Unescaping a leading `%XX`. -/
theorem QueryUnescape_percent (h l : Byte) (s : GoString) (hh : ishex h = true)
    (hl : ishex l = true) :
    QueryUnescape (byteOfNat 37 :: h :: l :: s) =
      (QueryUnescape s).map (fun t => byteOfNat (unhex h * 16 + unhex l) :: t) := by
  have h1 : (byteOfNat 37).val = 37 := by decide
  conv_lhs => unfold QueryUnescape
  rw [if_pos h1]
  simp only [hh, hl, Bool.and_self, if_true]

/-- `QueryUnescape` undoes `QueryEscape` on every byte string. -/
theorem QueryUnescape_QueryEscape (s : GoString) : QueryUnescape (QueryEscape s) = some s := by
  induction s with
  | nil => rfl
  | cons c s ih =>
    rw [QueryEscape]
    by_cases h32 : c.val = 32
    · have hc : byteOfNat 32 = c := by rw [← h32]; exact byteOfNat_self c
      rw [if_pos h32, QueryUnescape_plus, ih, ← hc]
      rfl
    · rw [if_neg h32]
      by_cases hesc : shouldEscape c = true
      · have hhi : c.val / 16 < 16 := by have := c.isLt; omega
        have hlo : c.val % 16 < 16 := by omega
        obtain ⟨a1, a2, -⟩ := upperhex_facts _ hhi
        obtain ⟨b1, b2, -⟩ := upperhex_facts _ hlo
        have hsum : c.val / 16 * 16 + c.val % 16 = c.val := by omega
        rw [if_pos hesc, QueryUnescape_percent _ _ _ a1 b1, ih, a2, b2, hsum, byteOfNat_self]
        rfl
      · have hesc2 : shouldEscape c = false := by simpa using hesc
        obtain ⟨n37, n43, -⟩ := shouldEscape_false c hesc2
        rw [if_neg hesc, QueryUnescape_plain _ _ n37 n43, ih]
        rfl

/-- An escaped string holds none of `&`, `=`, `;`. -/
theorem QueryEscape_clean (s : GoString) :
    ∀ b ∈ QueryEscape s, b.val ≠ 38 ∧ b.val ≠ 61 ∧ b.val ≠ 59 := by
  induction s with
  | nil => intro b hb; simp [QueryEscape] at hb
  | cons c s ih =>
    intro b hb
    rw [QueryEscape] at hb
    by_cases h32 : c.val = 32
    · rw [if_pos h32, List.mem_cons] at hb
      rcases hb with hb | hb
      · rw [hb]; decide
      · exact ih b hb
    · rw [if_neg h32] at hb
      by_cases hesc : shouldEscape c = true
      · have hhi : c.val / 16 < 16 := by have := c.isLt; omega
        have hlo : c.val % 16 < 16 := by omega
        obtain ⟨-, -, a3⟩ := upperhex_facts _ hhi
        obtain ⟨-, -, b3⟩ := upperhex_facts _ hlo
        rw [if_pos hesc, List.mem_cons, List.mem_cons, List.mem_cons] at hb
        rcases hb with hb | hb | hb | hb
        · rw [hb]; decide
        · rw [hb]; exact a3
        · rw [hb]; exact b3
        · exact ih b hb
      · have hesc2 : shouldEscape c = false := by simpa using hesc
        obtain ⟨-, -, n38, n61, n59⟩ := shouldEscape_false c hesc2
        rw [if_neg hesc, List.mem_cons] at hb
        rcases hb with hb | hb
        · rw [hb]; exact ⟨n38, n61, n59⟩
        · exact ih b hb

/-- Splitting in front of the first separator. -/
theorem splitOn_append_sep (sep : Byte) (p rest : GoString) (h : sep ∉ p) :
    splitOn sep (p ++ sep :: rest) = p :: splitOn sep rest := by
  induction p with
  | nil => simp [splitOn]
  | cons c p ih =>
    have hc : c ≠ sep := fun e => h (by rw [e]; exact List.mem_cons_self _ _)
    have hp : sep ∉ p := fun e => h (List.mem_cons_of_mem _ e)
    simp [splitOn, hc, ih hp]

/-- A string without the separator is its own single piece. -/
theorem splitOn_clean (sep : Byte) (p : GoString) (h : sep ∉ p) : splitOn sep p = [p] := by
  induction p with
  | nil => rfl
  | cons c p ih =>
    have hc : c ≠ sep := fun e => h (by rw [e]; exact List.mem_cons_self _ _)
    have hp : sep ∉ p := fun e => h (List.mem_cons_of_mem _ e)
    simp [splitOn, hc, ih hp]

/-- Cutting at the first separator. -/
theorem cut_append_sep (sep : Byte) (p rest : GoString) (h : sep ∉ p) :
    cut sep (p ++ sep :: rest) = (p, rest) := by
  induction p with
  | nil => simp [cut]
  | cons c p ih =>
    have hc : c ≠ sep := fun e => h (by rw [e]; exact List.mem_cons_self _ _)
    have hp : sep ∉ p := fun e => h (List.mem_cons_of_mem _ e)
    simp [cut, hc, ih hp]

/-- A byte whose code an escaped string never holds is not in it. -/
theorem not_mem_QueryEscape (n : Nat) (hn : n = 38 ∨ n = 61 ∨ n = 59) (s : GoString) :
    byteOfNat n ∉ QueryEscape s := by
  intro hmem
  have hv : (byteOfNat n).val = n := byteOfNat_val n (by omega)
  have := QueryEscape_clean s _ hmem
  omega

/-- An escaped pair `key=value` holds neither `&` nor `;`. -/
theorem not_mem_pair (n : Nat) (hn : n = 38 ∨ n = 59) (k v : GoString) :
    byteOfNat n ∉ QueryEscape k ++ byteOfNat 61 :: QueryEscape v := by
  intro hmem
  rw [List.mem_append, List.mem_cons] at hmem
  rcases hmem with hmem | hmem | hmem
  · exact not_mem_QueryEscape n (by omega) k hmem
  · have h1 : (byteOfNat n).val = n := byteOfNat_val n (by omega)
    have h2 : (byteOfNat n).val = 61 := by rw [hmem]; decide
    omega
  · exact not_mem_QueryEscape n (by omega) v hmem

/-- One loop iteration of `ParseQuery` on an escaped pair adds the pair. -/
theorem parseQueryStep_pair (acc : Values × Bool) (k v : GoString) :
    parseQueryStep acc (QueryEscape k ++ byteOfNat 61 :: QueryEscape v) =
      (Values.Add acc.1 k v, acc.2) := by
  unfold parseQueryStep
  rw [if_neg (not_mem_pair 59 (by omega) k v)]
  have hne : QueryEscape k ++ byteOfNat 61 :: QueryEscape v ≠ [] := by simp
  rw [if_neg hne, cut_append_sep _ _ _ (not_mem_QueryEscape 61 (by omega) k)]
  simp only [QueryUnescape_QueryEscape]

/-- Decoding the encoding of four single-valued fields gives the four fields. -/
theorem ParseQuery_four (k1 v1 k2 v2 k3 v3 k4 v4 : GoString) :
    ParseQuery (joinAmp [QueryEscape k1 ++ byteOfNat 61 :: QueryEscape v1,
      QueryEscape k2 ++ byteOfNat 61 :: QueryEscape v2,
      QueryEscape k3 ++ byteOfNat 61 :: QueryEscape v3,
      QueryEscape k4 ++ byteOfNat 61 :: QueryEscape v4]) =
    (Values.Add (Values.Add (Values.Add (Values.Add [] k1 v1) k2 v2) k3 v3) k4 v4, true) := by
  unfold ParseQuery
  simp only [joinAmp]
  rw [splitOn_append_sep _ _ _ (not_mem_pair 38 (by omega) k1 v1),
    splitOn_append_sep _ _ _ (not_mem_pair 38 (by omega) k2 v2),
    splitOn_append_sep _ _ _ (not_mem_pair 38 (by omega) k3 v3),
    splitOn_clean _ _ (not_mem_pair 38 (by omega) k4 v4)]
  simp only [List.foldl, parseQueryStep_pair]

/-- The body of the request of lines 97-104 decodes to its four fields. -/
theorem exchangeRequest_decodes (a : AppleConfig) (tokenString code : GoString) :
    ParseQuery (exchangeRequest a tokenString code).body =
      ([(ascii "client_id", [a.ClientID]), (ascii "client_secret", [tokenString]),
        (ascii "code", [code]), (ascii "grant_type", [ascii "authorization_code"])], true) := by
  have e12 : ascii "client_id" ≠ ascii "client_secret" := by decide
  have e13 : ascii "client_id" ≠ ascii "code" := by decide
  have e14 : ascii "client_id" ≠ ascii "grant_type" := by decide
  have e23 : ascii "client_secret" ≠ ascii "code" := by decide
  have e24 : ascii "client_secret" ≠ ascii "grant_type" := by decide
  have e34 : ascii "code" ≠ ascii "grant_type" := by decide
  have l12 : strLe (ascii "client_id") (ascii "client_secret") = true := by decide
  have l23 : strLe (ascii "client_secret") (ascii "code") = true := by decide
  have l34 : strLe (ascii "code") (ascii "grant_type") = true := by decide
  have henc : (exchangeRequest a tokenString code).body =
      joinAmp [QueryEscape (ascii "client_id") ++ byteOfNat 61 :: QueryEscape a.ClientID,
        QueryEscape (ascii "client_secret") ++ byteOfNat 61 :: QueryEscape tokenString,
        QueryEscape (ascii "code") ++ byteOfNat 61 :: QueryEscape code,
        QueryEscape (ascii "grant_type") ++ byteOfNat 61 :: QueryEscape AppleGrantType] := by
    simp [exchangeRequest, Values.Set, Values.Encode, sortByKey, insertSorted, e12, e13, e14, e23,
      e24, e34, l12, l23, l34]
  rw [henc, ParseQuery_four]
  simp [Values.Add, e12, e13, e14, e23, e24, e34, AppleGrantType]

/-- An ES256 token is signed without error only with an ECDSA key on a
256-bit curve, and the string returned is then the signing string, a dot,
and the signature of the signing string. -/
theorem SignedString_ok (env : Env) (t : Token) (key : PrivateKey) (hm : t.Method = .ES256)
    (hok : (t.SignedString env key).2 = Option.none) :
    ∃ d sstr sig, key = .ecdsa 256 d ∧ env.SigningString t = .ok sstr ∧
      env.ecdsaSign 256 d sstr = .ok sig ∧
      (t.SignedString env key).1 = sstr ++ byteOfNat 46 :: sig := by
  unfold Token.SignedString at hok ⊢
  cases hs : env.SigningString t with
  | error e1 =>
    rw [hs] at hok
    simp at hok
  | ok sstr =>
    rw [hs] at hok
    simp only [hm, SigningMethod.Sign, SigningMethod.CurveBits] at hok ⊢
    cases key with
    | ecdsa curveBits d =>
      simp only [SigningMethodECDSA.Sign] at hok ⊢
      cases hsig : env.ecdsaSign curveBits d sstr with
      | error e2 =>
        rw [hsig] at hok
        simp at hok
      | ok sig =>
        rw [hsig] at hok
        by_cases hb : 256 = curveBits
        · subst hb
          exact ⟨d, sstr, sig, rfl, rfl, hsig, by simp⟩
        · simp [hb] at hok
    | rsa n d => simp [SigningMethodECDSA.Sign] at hok
    | ed25519 seed => simp [SigningMethodECDSA.Sign] at hok
    | other name => simp [SigningMethodECDSA.Sign] at hok

/-- C9 as stated fails: with an RSA key loaded, signing the assertion returns
`ErrInvalidKeyType`, no signed assertion exists, and the body that is sent
decodes to a `client_secret` that is the empty string. -/
theorem GetAppleToken_form_body_counterexample :
    rsaConfig.AESCert = some (.rsa 3233 2753) ∧
    (signedToken (GetAppleToken tokenEnv rsaConfig specialCode 300 0).trace).map
      (fun tok => (tok.SignedString tokenEnv (.rsa 3233 2753)).2) =
      some (some .ErrInvalidKeyType) ∧
    (postedRequest (GetAppleToken tokenEnv rsaConfig specialCode 300 0).trace).bind
      (fun req => (ParseQuery req.body).1.lookup (ascii "client_secret")) = some [[]] := by
  rw [GetAppleToken_trace _ _ _ _ _ _ (rfl : rsaConfig.AESCert = some (.rsa 3233 2753))]
  refine ⟨rfl, by decide, ?_⟩
  have hempty : ((assertion rsaConfig (tokenEnv.clock 0) (tokenEnv.clock (0 + 1)) 300).SignedString
      tokenEnv (.rsa 3233 2753)).1 = [] := by decide
  simp only [postedRequest, Option.bind, hempty, exchangeRequest_decodes]
  decide

/-- C9, amended: with a key loaded, whenever signing the assertion succeeds
(`SignedString` returns a nil error, which needs an ECDSA key on a 256-bit
curve), for every code (any bytes: `&`, `=`, `+`, `%`, spaces, non-ASCII), the
body of the request that is sent decodes as
`application/x-www-form-urlencoded` without error to exactly four fields with
one value each: `client_id` the client identifier, `client_secret` the signed
assertion (the signing string of the token, a dot, and the ECDSA signature of
that signing string), `code` the caller's code unchanged, `grant_type`
"authorization_code". -/
theorem GetAppleToken_form_body (env : Env) (a : AppleConfig) (code : GoString)
    (expireTime : Int) (tick : Nat) (cert : PrivateKey) (tok : Token)
    (h : a.AESCert = some cert)
    (htok : signedToken (GetAppleToken env a code expireTime tick).trace = some tok)
    (hok : (tok.SignedString env cert).2 = Option.none) :
    ∃ d sstr sig req, cert = .ecdsa 256 d ∧ env.SigningString tok = .ok sstr ∧
      env.ecdsaSign 256 d sstr = .ok sig ∧
      postedRequest (GetAppleToken env a code expireTime tick).trace = some req ∧
      req.url = AppleAuthURL ∧ req.type = TypeUrlencoded ∧
      ParseQuery req.body =
        ([(ascii "client_id", [a.ClientID]),
          (ascii "client_secret", [sstr ++ byteOfNat 46 :: sig]),
          (ascii "code", [code]), (ascii "grant_type", [ascii "authorization_code"])], true) := by
  rw [GetAppleToken_trace env a code expireTime tick cert h] at htok ⊢
  simp only [signedToken, Option.some.injEq] at htok
  subst htok
  obtain ⟨d, sstr, sig, hkey, hs, hsig, hstr⟩ := SignedString_ok env _ cert rfl hok
  refine ⟨d, sstr, sig, _, hkey, hs, hsig, rfl, rfl, rfl, ?_⟩
  rw [exchangeRequest_decodes, hstr]

/-- Witness of the amended C9: a P-256 key and a code full of reserved and
non-ASCII bytes; the `client_secret` that is decoded is the signed assertion
"header.claims.signature". -/
theorem GetAppleToken_form_body_witness :
    ∃ d sstr sig req, PrivateKey.ecdsa 256 7 = .ecdsa 256 d ∧
      (tickingEnv (.response 200 [])).SigningString
        (assertion sampleConfig 1700000000 1700000001 300) = .ok sstr ∧
      (tickingEnv (.response 200 [])).ecdsaSign 256 d sstr = .ok sig ∧
      postedRequest (GetAppleToken (tickingEnv (.response 200 [])) sampleConfig specialCode
        300 0).trace = some req ∧
      req.url = AppleAuthURL ∧ req.type = TypeUrlencoded ∧
      ParseQuery req.body =
        ([(ascii "client_id", [sampleConfig.ClientID]),
          (ascii "client_secret", [sstr ++ byteOfNat 46 :: sig]),
          (ascii "code", [specialCode]), (ascii "grant_type", [ascii "authorization_code"])], true) :=
  GetAppleToken_form_body (tickingEnv (.response 200 [])) sampleConfig specialCode 300 0
    (.ecdsa 256 7) (assertion sampleConfig 1700000000 1700000001 300) rfl
    (by rw [GetAppleToken_trace _ _ _ _ _ _ (rfl : sampleConfig.AESCert = some (.ecdsa 256 7))]; rfl)
    (by decide)

/-! ### Decoding the answer -/

/-- An integer inside the `int64` range is stored. -/
theorem storeInt64_inRange (old : Int) (tag : GoString) (n : Int)
    (hn : -(2 : Int) ^ 63 ≤ n ∧ n < (2 : Int) ^ 63) :
    storeInt64 old tag (.int n) = (n, Option.none) := by
  simp only [storeInt64]
  rw [if_pos hn]

/-- Storing the expected value of a field sets that field and no other. -/
theorem storeField_expected (T t : AppleAuthToken) (f : Field)
    (hn : -(2 : Int) ^ 63 ≤ T.ExpiresIn ∧ T.ExpiresIn < (2 : Int) ^ 63) :
    (storeField t f (expectedJSON T f)).2 = Option.none ∧
    agreesAt T (storeField t f (expectedJSON T f)).1 f ∧
    ∀ g, agreesAt T t g → agreesAt T (storeField t f (expectedJSON T f)).1 g := by
  refine ⟨?_, ?_, ?_⟩
  · cases f <;> simp [storeField, expectedJSON, storeString, storeInt64_inRange _ _ _ hn]
  · cases f <;> simp [storeField, expectedJSON, storeString, storeInt64_inRange _ _ _ hn, agreesAt]
  · intro g hg
    cases f <;> cases g <;>
      first
      | exact hg
      | simp [storeField, expectedJSON, storeString, storeInt64_inRange _ _ _ hn, agreesAt]

/-- The object loop over members of which each one that selects a field
carries the value of that field in `T`: no error, and every selected field
agrees with `T`. -/
theorem decodeMembers_expected (env : Env) (T : AppleAuthToken)
    (hn : -(2 : Int) ^ 63 ≤ T.ExpiresIn ∧ T.ExpiresIn < (2 : Int) ^ 63)
    (ms : List (GoString × JSON)) :
    ∀ t : AppleAuthToken,
      (∀ kv ∈ ms, ∀ f, findField env kv.1 = some f → kv.2 = expectedJSON T f) →
      (decodeMembers env ms (t, Option.none)).2 = Option.none ∧
      (∀ g, agreesAt T t g → agreesAt T (decodeMembers env ms (t, Option.none)).1 g) ∧
      (∀ kv ∈ ms, ∀ f, findField env kv.1 = some f →
        agreesAt T (decodeMembers env ms (t, Option.none)).1 f) := by
  induction ms with
  | nil =>
    intro t _
    simp [decodeMembers]
  | cons kv ms ih =>
    intro t hall
    obtain ⟨k, v⟩ := kv
    cases hf : findField env k with
    | none =>
      have hstep : decodeMembers env ((k, v) :: ms) (t, Option.none) =
          decodeMembers env ms (t, Option.none) := by
        simp [decodeMembers, hf]
      rw [hstep]
      obtain ⟨r1, r2, r3⟩ := ih t (fun kv hkv => hall kv (List.mem_cons_of_mem _ hkv))
      refine ⟨r1, r2, ?_⟩
      intro kv hkv g hg
      rcases List.mem_cons.mp hkv with hkv | hkv
      · subst hkv
        simp only at hg
        rw [hf] at hg
        cases hg
      · exact r3 kv hkv g hg
    | some f =>
      have hv : v = expectedJSON T f := hall (k, v) (List.mem_cons_self _ _) f hf
      subst hv
      obtain ⟨s1, s2, s3⟩ := storeField_expected T t f hn
      obtain ⟨r1, r2, r3⟩ := ih (storeField t f (expectedJSON T f)).1
        (fun kv hkv => hall kv (List.mem_cons_of_mem _ hkv))
      have hstep : decodeMembers env ((k, expectedJSON T f) :: ms) (t, Option.none) =
          decodeMembers env ms ((storeField t f (expectedJSON T f)).1, Option.none) := by
        simp [decodeMembers, hf, saveError, s1]
      rw [hstep]
      refine ⟨r1, fun g hg => r2 g (s3 g hg), ?_⟩
      intro kv hkv g hg
      rcases List.mem_cons.mp hkv with hkv | hkv
      · subst hkv
        simp only at hg
        rw [hf] at hg
        cases hg
        exact r2 f s2
      · exact r3 kv hkv g hg

/-- The exact tag of each field selects that field. -/
theorem findField_tag (env : Env) (f : Field) : findField env f.tag = some f := by
  have h : exactField f.tag = some f := by cases f <;> decide
  simp [findField, h]

/-- `json.Unmarshal` of an object that has the five members of `T` and in
which every member that selects a field carries the value of that field in
`T` fills the struct with `T`. -/
theorem jsonUnmarshal_five (env : Env) (data : GoString) (members : List (GoString × JSON))
    (T : AppleAuthToken) (hn : -(2 : Int) ^ 63 ≤ T.ExpiresIn ∧ T.ExpiresIn < (2 : Int) ^ 63)
    (hscan : env.jsonScan data = .ok (.obj members))
    (hfive : ∀ f : Field, (f.tag, expectedJSON T f) ∈ members)
    (hrest : ∀ kv ∈ members, ∀ f, findField env kv.1 = some f → kv.2 = expectedJSON T f) :
    jsonUnmarshal env data = (T, Option.none) := by
  obtain ⟨h1, -, h3⟩ := decodeMembers_expected env T hn members AppleAuthToken.zero hrest
  have hfield : ∀ f, agreesAt T (decodeMembers env members (AppleAuthToken.zero, Option.none)).1 f :=
    fun f => h3 _ (hfive f) f (findField_tag env f)
  have hres : decodeMembers env members (AppleAuthToken.zero, Option.none) = (T, Option.none) := by
    have a1 := hfield .AccessToken
    have a2 := hfield .ExpiresIn
    have a3 := hfield .IDToken
    have a4 := hfield .RefreshToken
    have a5 := hfield .TokenType
    simp only [agreesAt] at a1 a2 a3 a4 a5
    generalize decodeMembers env members (AppleAuthToken.zero, Option.none) = r at *
    obtain ⟨t, e⟩ := r
    obtain ⟨x1, x2, x3, x4, x5⟩ := t
    obtain ⟨y1, y2, y3, y4, y5⟩ := T
    simp only at a1 a2 a3 a4 a5 h1
    simp [a1, a2, a3, a4, a5, h1]
  simp only [jsonUnmarshal, hscan, hres]

/-- C10 as stated fails: the answer 200 with the five fields and the integer
`expires_in = 9223372036854775808` (one past the largest `int64`) gives an
error and no token. -/
theorem GetAppleToken_decodes_token_counterexample :
    (GetAppleToken overflowEnv sampleConfig (ascii "c0de") 300 0).ret =
      (Option.none, some (.jsonUnmarshalType (ascii "number") (ascii "expires_in"))) := by
  rw [GetAppleToken_ret _ _ _ _ _ _ (rfl : sampleConfig.AESCert = some (.ecdsa 256 7))]
  decide

/-- C10, amended: when the endpoint answers the request with status 200 and a
body that is a JSON object with the members `access_token`, `id_token`,
`refresh_token`, `token_type` (strings) and `expires_in` (an integer inside
the `int64` range), in any order, and no member of the object selects one of
the five fields with another value, the call returns no error and a token
whose five fields are exactly those five values. -/
theorem GetAppleToken_decodes_token (env : Env) (a : AppleConfig) (code : GoString)
    (expireTime : Int) (tick : Nat) (req : Request) (body : GoString)
    (members : List (GoString × JSON)) (T : AppleAuthToken)
    (hpost : postedRequest (GetAppleToken env a code expireTime tick).trace = some req)
    (hEnd : env.End req = .response 200 body)
    (hscan : env.jsonScan body = .ok (.obj members))
    (hfive : (ascii "access_token", JSON.str T.AccessToken) ∈ members ∧
      (ascii "expires_in", JSON.int T.ExpiresIn) ∈ members ∧
      (ascii "id_token", JSON.str T.IDToken) ∈ members ∧
      (ascii "refresh_token", JSON.str T.RefreshToken) ∈ members ∧
      (ascii "token_type", JSON.str T.TokenType) ∈ members)
    (hrest : ∀ kv ∈ members, ∀ f, findField env kv.1 = some f → kv.2 = expectedJSON T f)
    (hn : -(2 : Int) ^ 63 ≤ T.ExpiresIn ∧ T.ExpiresIn < (2 : Int) ^ 63) :
    (GetAppleToken env a code expireTime tick).ret = (some T, Option.none) := by
  have hfive2 : ∀ f : Field, (f.tag, expectedJSON T f) ∈ members := by
    obtain ⟨m1, m2, m3, m4, m5⟩ := hfive
    intro f
    cases f
    · exact m1
    · exact m2
    · exact m3
    · exact m4
    · exact m5
  cases h : a.AESCert with
  | none =>
    rw [GetAppleToken_nil_cert env a code expireTime tick h] at hpost
    simp [postedRequest] at hpost
  | some cert =>
    rw [GetAppleToken_trace env a code expireTime tick cert h] at hpost
    simp only [postedRequest, Option.some.injEq] at hpost
    rw [GetAppleToken_ret env a code expireTime tick cert h, hpost, hEnd]
    simp [jsonUnmarshal_five env body members T hn hscan hfive2 hrest]

/-- The members of `tokenTree` select their own fields only. -/
theorem tokenTree_members (env : Env) (n : Int) :
    ∀ kv ∈ [(ascii "access_token", JSON.str (ascii "a")), (ascii "expires_in", JSON.int n),
        (ascii "id_token", JSON.str (ascii "b")), (ascii "refresh_token", JSON.str (ascii "c")),
        (ascii "token_type", JSON.str (ascii "Bearer"))],
      ∀ f, findField env kv.1 = some f →
        kv.2 = expectedJSON (exampleToken n) f := by
  intro kv hkv f hf
  simp only [List.mem_cons, List.mem_singleton, List.not_mem_nil, or_false] at hkv
  rcases hkv with rfl | rfl | rfl | rfl | rfl
  · rw [show ascii "access_token" = Field.AccessToken.tag from rfl, findField_tag] at hf
    cases hf
    rfl
  · rw [show ascii "expires_in" = Field.ExpiresIn.tag from rfl, findField_tag] at hf
    cases hf
    rfl
  · rw [show ascii "id_token" = Field.IDToken.tag from rfl, findField_tag] at hf
    cases hf
    rfl
  · rw [show ascii "refresh_token" = Field.RefreshToken.tag from rfl, findField_tag] at hf
    cases hf
    rfl
  · rw [show ascii "token_type" = Field.TokenType.tag from rfl, findField_tag] at hf
    cases hf
    rfl

/-- Witness of the amended C10: the example answer of the specification. -/
theorem GetAppleToken_decodes_token_witness :
    (GetAppleToken tokenEnv sampleConfig (ascii "c0de") 300 0).ret =
      (some { AccessToken := ascii "a", ExpiresIn := 3600, IDToken := ascii "b",
              RefreshToken := ascii "c", TokenType := ascii "Bearer" }, Option.none) :=
  GetAppleToken_decodes_token tokenEnv sampleConfig (ascii "c0de") 300 0 _ (tokenDoc "3600")
    [(ascii "access_token", .str (ascii "a")), (ascii "expires_in", .int 3600),
      (ascii "id_token", .str (ascii "b")), (ascii "refresh_token", .str (ascii "c")),
      (ascii "token_type", .str (ascii "Bearer"))]
    (exampleToken 3600)
    (by rw [GetAppleToken_trace _ _ _ _ _ _ (rfl : sampleConfig.AESCert = some (.ecdsa 256 7))]; rfl)
    rfl (by simp [tokenEnv, simEnv, tokenTree])
    ⟨List.mem_cons_self _ _,
      List.mem_cons_of_mem _ (List.mem_cons_self _ _),
      List.mem_cons_of_mem _ (List.mem_cons_of_mem _ (List.mem_cons_self _ _)),
      List.mem_cons_of_mem _ (List.mem_cons_of_mem _ (List.mem_cons_of_mem _ (List.mem_cons_self _ _))),
      List.mem_cons_of_mem _ (List.mem_cons_of_mem _ (List.mem_cons_of_mem _
        (List.mem_cons_of_mem _ (List.mem_cons_self _ _))))⟩
    (tokenTree_members _ 3600) (by decide)

/-! ### The ignored signing error -/

/-- When `SignedString` returns an error its string is empty. -/
theorem SignedString_error_empty (env : Env) (t : Token) (key : PrivateKey) (e : JwtErr)
    (h : (t.SignedString env key).2 = some e) : (t.SignedString env key).1 = [] := by
  unfold Token.SignedString at h ⊢
  cases hs : env.SigningString t with
  | error e1 => simp
  | ok sstr =>
    rw [hs] at h
    simp only at h ⊢
    rcases hsig : t.Method.Sign env sstr key with ⟨sig, _ | e2⟩
    · rw [hsig] at h
      simp at h
    · simp

/-- An ES256 token is never signed with a key that is not an ECDSA key. -/
theorem SignedString_rsa (env : Env) (t : Token) (n d : Nat) (hm : t.Method = .ES256) :
    ∃ e, (t.SignedString env (.rsa n d)).2 = some e := by
  unfold Token.SignedString
  cases hs : env.SigningString t with
  | error e1 => exact ⟨e1, rfl⟩
  | ok sstr =>
    refine ⟨.ErrInvalidKeyType, ?_⟩
    simp [hm, SigningMethod.Sign, SigningMethod.CurveBits, SigningMethodECDSA.Sign]

/-- C3, what the code does: when signing the assertion fails (line 96 drops
the error), the request is still sent, with an empty `client_secret`, and the
call returns the token of the answer instead of a signing error. -/
theorem GetAppleToken_signing_error_ignored (env : Env) (a : AppleConfig) (code : GoString)
    (expireTime : Int) (tick : Nat) (cert : PrivateKey) (e : JwtErr) (body : GoString)
    (t : AppleAuthToken) (h : a.AESCert = some cert)
    (hsign : ((assertion a (env.clock tick) (env.clock (tick + 1)) expireTime).SignedString
      env cert).2 = some e)
    (hEnd : env.End (exchangeRequest a [] code) = .response 200 body)
    (hjson : jsonUnmarshal env body = (t, Option.none)) :
    postedRequest (GetAppleToken env a code expireTime tick).trace =
      some (exchangeRequest a [] code) ∧
    (ParseQuery (exchangeRequest a [] code).body).1.lookup (ascii "client_secret") = some [[]] ∧
    (GetAppleToken env a code expireTime tick).ret = (some t, Option.none) := by
  have hempty := SignedString_error_empty env _ cert e hsign
  rw [GetAppleToken_trace env a code expireTime tick cert h,
    GetAppleToken_ret env a code expireTime tick cert h, hempty, hEnd]
  refine ⟨rfl, ?_, by simp [hjson]⟩
  have hb : (ascii "client_secret" == ascii "client_id") = false := by decide
  simp [exchangeRequest_decodes, List.lookup, hb]

/-- Witness of C3: an RSA key, an endpoint answering 200 with a token. -/
theorem GetAppleToken_signing_error_ignored_witness :
    postedRequest (GetAppleToken tokenEnv rsaConfig (ascii "c0de") 300 0).trace =
      some (exchangeRequest rsaConfig [] (ascii "c0de")) ∧
    (ParseQuery (exchangeRequest rsaConfig [] (ascii "c0de")).body).1.lookup
      (ascii "client_secret") = some [[]] ∧
    (GetAppleToken tokenEnv rsaConfig (ascii "c0de") 300 0).ret =
      (some { AccessToken := ascii "a", ExpiresIn := 3600, IDToken := ascii "b",
              RefreshToken := ascii "c", TokenType := ascii "Bearer" }, Option.none) :=
  GetAppleToken_signing_error_ignored tokenEnv rsaConfig (ascii "c0de") 300 0
    (.rsa 3233 2753) .ErrInvalidKeyType (tokenDoc "3600") _ rfl (by decide) rfl (by decide)

/-! ### Loading a key -/

/-- C2, what the code does: for every input in which `pem.Decode` finds no
block, `LoadP8CertByByte` does not return a decode error; reading
`block.Bytes` of the nil block panics. -/
theorem LoadP8CertByByte_no_block_panics (env : Env) (a : AppleConfig) (str : GoString)
    (h : pemDecode env str = Option.none) :
    LoadP8CertByByte env a str =
      .panicked (ascii "invalid memory address or nil pointer dereference") := by
  unfold LoadP8CertByByte
  rw [h]

/-- Witness of C2: the bytes "garbage". -/
theorem LoadP8CertByByte_no_block_panics_witness :
    pemDecode identityEnv (ascii "garbage") = Option.none ∧
    LoadP8CertByByte identityEnv (InitAppleConfig (ascii "TEAM") (ascii "com.example.app")
      (ascii "KEY")) (ascii "garbage") =
      .panicked (ascii "invalid memory address or nil pointer dereference") :=
  ⟨by decide, LoadP8CertByByte_no_block_panics _ _ _ (by decide)⟩

/-! ### Identity tokens -/

/-- `strings.Split` returns one piece more than there are separators. -/
theorem splitOn_length (sep : Byte) (s : GoString) :
    (splitOn sep s).length = s.count sep + 1 := by
  induction s with
  | nil => rfl
  | cons c s ih =>
    by_cases hc : c = sep
    · subst hc
      simp [splitOn, ih]
    · have hc2 : (c == sep) = false := by simpa using hc
      rw [splitOn, if_neg hc, List.count_cons, hc2]
      cases hsp : splitOn sep s with
      | nil => rw [hsp] at ih; simp at ih
      | cons p ps =>
        rw [hsp] at ih
        simpa using ih

/-- `ParseUnverified` on a token that does not split into three parts. -/
theorem ParseUnverified_segments (env : Env) (tokenString : GoString)
    (h : (splitOn (byteOfNat 46) tokenString).length ≠ 3) :
    ParseUnverified env tokenString =
      (Option.none, splitOn (byteOfNat 46) tokenString,
        some (NewValidationError (ascii "token contains an invalid number of segments")
          ValidationErrorMalformed)) := by
  unfold ParseUnverified
  simp only []
  split
  · rename_i p0 p1 p2 heq
    rw [heq] at h
    simp at h
  · rfl

/-- `ParseUnverified` never returns a nil token together with a nil error. -/
theorem ParseUnverified_not_nil_nil (env : Env) (tokenString : GoString) (parts : List GoString) :
    ParseUnverified env tokenString ≠ (Option.none, parts, Option.none) := by
  unfold ParseUnverified
  simp only []
  intro h
  split at h
  · split at h
    · split at h <;> simp at h
    · split at h
      · simp at h
      · split at h
        · simp at h
        · split at h
          · simp at h
          · split at h
            · split at h <;> simp at h
            · simp at h
  · simp at h

/-- Setting the bit `ValidationErrorSignatureInvalid` leaves a non-zero mask. -/
theorem or_signatureInvalid_ne_zero (x : Nat) : x ||| ValidationErrorSignatureInvalid ≠ 0 := by
  intro h
  have h2 : (x ||| ValidationErrorSignatureInvalid).testBit 2 = true := by
    rw [Nat.testBit_or]
    have : ValidationErrorSignatureInvalid.testBit 2 = true := by decide
    simp [this]
  rw [h] at h2
  simp at h2

/-- `Verify` with a nil key fails for every registered method, whatever the
signing string and the signature are. -/
theorem Verify_nil_key (env : Env) (m : SigningMethod) (signingString signature : GoString) :
    ∃ e, m.Verify env signingString signature Option.none = some e := by
  cases m <;> simp only [SigningMethod.Verify] <;>
    first
    | exact ⟨_, rfl⟩
    | (cases env.DecodeSegment signature <;> exact ⟨_, rfl⟩)

/-- `jwt.Parse` with a key function that returns a nil key always returns an
error: either the unverified parse fails, or the verification with the nil
key sets the bit `ValidationErrorSignatureInvalid`. -/
theorem jwtParse_nil_key (env : Env) (tokenString : GoString) :
    ∃ tok err, jwtParse env tokenString (fun _ => (Option.none, Option.none)) = (tok, some err) ∧
      ((ParseUnverified env tokenString).2.2 = Option.none →
        err.Inner ≠ Option.none ∧ err.Errors ||| ValidationErrorSignatureInvalid = err.Errors) := by
  unfold jwtParse
  rcases hp : ParseUnverified env tokenString with ⟨tok, parts, _ | err⟩
  · cases tok with
    | none => exact absurd hp (ParseUnverified_not_nil_nil env tokenString parts)
    | some t =>
      simp only []
      obtain ⟨e, he⟩ := Verify_nil_key env t.Method
        (parts.getD 0 [] ++ byteOfNat 46 :: parts.getD 1 []) (parts.getD 2 [])
      rw [he]
      simp only [ValidationError.valid, beq_iff_eq, or_signatureInvalid_ne_zero, if_false]
      refine ⟨_, _, rfl, ?_⟩
      intro _
      refine ⟨by simp, ?_⟩
      simp only [Nat.or_assoc, Nat.or_self]
  · refine ⟨tok, err, ?_, ?_⟩
    · cases tok <;> rfl
    · intro h2
      simp at h2

/-- Lines 135-145, were they reached: string claims `sub` and `email` are
copied into the user. -/
theorem userOfClaims_strings (env : Env) (claims : GoMap) (s e : GoString)
    (hs : claims.index (ascii "sub") = some (.str s))
    (he : claims.index (ascii "email") = some (.str e)) :
    userOfClaims env claims = { ID := s, Email := e } := by
  simp [userOfClaims, hs, he, Sprintf_v]

/-- Lines 135-145, were they reached: a missing claim leaves its field empty. -/
theorem userOfClaims_missing (env : Env) (claims : GoMap) :
    (claims.index (ascii "email") = Option.none → (userOfClaims env claims).Email = []) ∧
    (claims.index (ascii "sub") = Option.none → (userOfClaims env claims).ID = []) := by
  constructor
  · intro h
    simp only [userOfClaims, h]
    cases claims.index (ascii "sub") <;> rfl
  · intro h
    simp only [userOfClaims, h]
    cases claims.index (ascii "email") <;> rfl

/-- `GetUserByToken` returns the error of `jwt.Parse` whenever there is one. -/
theorem GetUserByToken_of_parse_error (env : Env) (token : GoString) (tok : Option Token)
    (err : ValidationError)
    (h : jwtParse env token (fun _ => (Option.none, Option.none)) = (tok, some err)) :
    GetUserByToken env token = .returned (Option.none, some (.jwt err)) := by
  unfold GetUserByToken
  rw [h]
  cases tok <;> rfl

/-- C6, what the code does: `GetUserByToken` never returns a user.  The key
function of line 122 hands `jwt.Parse` a nil key, the signature check with a
nil key fails for every signing method, and the error of `jwt.Parse` is
returned by line 126, for every token and whatever its payload holds. -/
theorem GetUserByToken_never_returns_user (env : Env) (token : GoString) :
    ∃ err, GetUserByToken env token = .returned (Option.none, some (.jwt err)) := by
  obtain ⟨tok, err, h, -⟩ := jwtParse_nil_key env token
  exact ⟨err, GetUserByToken_of_parse_error env token tok err h⟩

/-- C7, what the code does: for a token that parses into a claim mapping
(header, payload and signing method are all read without error), the call
still returns no user but an error with `ValidationErrorSignatureInvalid`
set, whether or not the claims `email` and `sub` are present. -/
theorem GetUserByToken_parsed_claims_rejected (env : Env) (token : GoString)
    (h : (ParseUnverified env token).2.2 = Option.none) :
    ∃ err, GetUserByToken env token = .returned (Option.none, some (.jwt err)) ∧
      err.Inner ≠ Option.none ∧
      err.Errors ||| ValidationErrorSignatureInvalid = err.Errors := by
  obtain ⟨tok, err, h1, h2⟩ := jwtParse_nil_key env token
  exact ⟨err, GetUserByToken_of_parse_error env token tok err h1, h2 h⟩

/-- Witness of C7: the payload `{"sub":"12345"}` parses into a claim mapping
with `sub` and without `email`. -/
theorem GetUserByToken_parsed_claims_rejected_witness :
    (ParseUnverified identityEnv subOnlyToken).2.2 = Option.none ∧
    (ParseUnverified identityEnv subOnlyToken).1.bind (fun t => t.Claims.strAt (ascii "sub")) =
      some (ascii "12345") ∧
    (ParseUnverified identityEnv subOnlyToken).1.bind (fun t => t.Claims.strAt (ascii "email")) =
      Option.none ∧
    ∃ err, GetUserByToken identityEnv subOnlyToken = .returned (Option.none, some (.jwt err)) ∧
      err.Inner ≠ Option.none ∧
      err.Errors ||| ValidationErrorSignatureInvalid = err.Errors :=
  ⟨by decide, by decide, by decide,
    GetUserByToken_parsed_claims_rejected identityEnv subOnlyToken (by decide)⟩

/-- C8: a token string that is not made of exactly three dot-separated
segments (the number of dots is not two: the empty string, two segments, four
segments) gives the parse error "token contains an invalid number of
segments" and no user. -/
theorem GetUserByToken_wrong_segments (env : Env) (token : GoString)
    (h : token.count (byteOfNat 46) ≠ 2) :
    GetUserByToken env token =
      .returned (Option.none, some (.jwt (NewValidationError
        (ascii "token contains an invalid number of segments") ValidationErrorMalformed))) := by
  have hlen : (splitOn (byteOfNat 46) token).length ≠ 3 := by
    rw [splitOn_length]
    omega
  apply GetUserByToken_of_parse_error env token Option.none
  unfold jwtParse
  rw [ParseUnverified_segments env token hlen]

/-- Witness of C8: a token with four segments. -/
theorem GetUserByToken_wrong_segments_witness :
    (ascii "a.b.c.d").count (byteOfNat 46) ≠ 2 ∧
    GetUserByToken identityEnv (ascii "a.b.c.d") =
      .returned (Option.none, some (.jwt (NewValidationError
        (ascii "token contains an invalid number of segments") ValidationErrorMalformed))) :=
  ⟨by decide, GetUserByToken_wrong_segments identityEnv (ascii "a.b.c.d") (by decide)⟩

end AppleLogin
